import Mathlib

/-!
# Verification of the RedditStoryGenerator video pipeline

A shallow embedding of the video-assembly pipeline of the
RedditStoryGenerator repository (`src/config.py`, `src/video/background.py`,
`src/video/text_overlay.py`, `src/video/compositor.py`,
`src/reddit/post_processor.py`, `src/main.py`).

Modelling conventions:
* The external world (filesystem, PIL font metrics, moviepy media handles,
  the random source, TTS results) is passed explicitly as parameters:
  directory listings become lists of entries, `random.choice` becomes
  indexing by `rand % length`, font measurement becomes a function
  `Nat -> Nat × Nat`, and media files are described by their path,
  dimensions and duration.
* Durations and pixel geometry computed by moviepy in floating point are
  modelled with exact rationals `ℚ`; the concrete inputs used in the
  theorems below are all exactly representable, so no rounding divergence
  arises at them.
* Python functions that swallow exceptions and return `None` are modelled
  as `Option`-valued functions returning `none` on the corresponding
  branches.
-/

namespace RedditVideo

/-! ## config.py -/

def VIDEO_WIDTH : ℕ := 1080

def VIDEO_HEIGHT : ℕ := 1920

def VIDEO_FPS : ℕ := 30

/-- Python `str.endswith`, on the character sequences of the strings. -/
def pyEndsWith (s suf : String) : Bool :=
  suf.data.isSuffixOf s.data

/-- Python `str.lower` (character-wise lowering, as applied to the ASCII
file extensions involved here). -/
def pyLower (s : String) : String :=
  String.mk (s.data.map Char.toLower)

/-! ## video/background.py — BackgroundManager -/

/-- One entry of the background directory as seen by `os.listdir`,
together with the `os.path.isfile` answer for it. -/
structure DirEntry where
  name : String
  isFile : Bool
deriving DecidableEq, Repr

/-- `BackgroundManager.video_extensions`. -/
def video_extensions : List String := [".mp4", ".avi", ".mov", ".mkv"]

/-- `BackgroundManager.get_available_backgrounds`.  The filesystem is
modelled by `dirExists` (`os.path.exists(self.background_dir)`) and
`entries` (`os.listdir` plus the `os.path.isfile` verdicts);
`os.path.join` is modelled as joining with `"/"`. -/
def get_available_backgrounds (background_dir : String) (dirExists : Bool)
    (entries : List DirEntry) : List String :=
  if dirExists then
    (entries.filter fun e =>
      e.isFile && video_extensions.any fun ext => pyEndsWith (pyLower e.name) ext).map
      fun e => background_dir ++ "/" ++ e.name
  else []

/-- `BackgroundManager.select_random_background`.  `random.choice(lst)` is
modelled as `lst[rand % len(lst)]` for an arbitrary draw `rand` of the
random source: every index is reachable, and only listed assets can be
produced. -/
def select_random_background (background_dir : String) (dirExists : Bool)
    (entries : List DirEntry) (rand : ℕ) : Option String :=
  let backgrounds := get_available_backgrounds background_dir dirExists entries
  if backgrounds.isEmpty then none
  else backgrounds[rand % backgrounds.length]?

/-! ## video/background.py — get_background_clip geometry

`get_background_clip` loads a clip of source size `w × h`, resizes it to
height `config.VIDEO_HEIGHT` preserving aspect ratio (moviepy
`clip.resize(height=1920)` scales both dimensions by `1920 / h`), and then
crops left/right only when the scaled width exceeds `config.VIDEO_WIDTH`.
Geometry is modelled exactly over `ℚ`. -/

/-- The `(width, height)` of the clip returned by
`BackgroundManager.get_background_clip` for a source of size `w × h`
(lines 86-93 of `src/video/background.py`): after
`clip.resize(height=1920)` the width is `w * 1920 / h`; the crop to width
1080 is applied only when that scaled width exceeds 1080. -/
def get_background_clip_dims (w h : ℚ) : ℚ × ℚ :=
  if 1080 < w * 1920 / h then (1080, 1920) else (w * 1920 / h, 1920)

/-- The crop rectangle `(x1, y1, x2, y2)` applied by
`BackgroundManager.get_background_clip` (`x1 = x_center - 1080 / 2`,
`y1 = 0`, `x2 = x1 + 1080`, `y2 = 1920`), or `none` when the code
performs no crop (scaled width not larger than the target width). -/
def get_background_clip_crop (w h : ℚ) : Option (ℚ × ℚ × ℚ × ℚ) :=
  if 1080 < w * 1920 / h then
    some (w * 1920 / h / 2 - 1080 / 2, 0,
      w * 1920 / h / 2 - 1080 / 2 + 1080, 1920)
  else none

/-! ## video/text_overlay.py — _calculate_max_font_size

The PIL font metric `temp_draw.textsize(text, font)` at a given font size
is modelled by a function `measure : ℕ → ℕ × ℕ` giving the measured
`(text_width, text_height)` of the (fixed) text at each size.  The Python
`while` loop decrements by 2 from 120 and stops at 24; it runs at most 48
iterations, which the fuel argument makes explicit (48 decrements take
120 to 24, where the loop guard fails). -/

def fontSizeSearchGo (measure : ℕ → ℕ × ℕ) (max_width max_height : ℕ) :
    ℕ → ℕ → ℕ
  | 0, font_size => font_size
  | fuel + 1, font_size =>
    if 24 < font_size then
      if (measure font_size).1 ≤ max_width ∧ (measure font_size).2 ≤ max_height then
        font_size
      else fontSizeSearchGo measure max_width max_height fuel (font_size - 2)
    else font_size

/-- `TextOverlayGenerator._calculate_max_font_size`: start at 120,
decrement by 2 while the measured text does not fit, never below 24. -/
def _calculate_max_font_size (measure : ℕ → ℕ × ℕ)
    (max_width max_height : ℕ) : ℕ :=
  fontSizeSearchGo measure max_width max_height 48 120

/-! ## video/text_overlay.py — _wrap_text

`_wrap_text` estimates `chars_per_line = max(1, int(max_width /
avg_char_width * 0.9))` from the measured width of the character `'x'`
and then delegates to the Python standard-library `textwrap.wrap` with
its default options (`replace_whitespace=True`, `drop_whitespace=True`,
`break_long_words=True`).  `textwrap.wrap` is modelled below for
tab-free, hyphen-free text (tab expansion and hyphen-aware breaking are
identities on such text): the text is whitespace-munged, split into
maximal runs of spaces / non-spaces, and the runs are packed greedily by
character count; a first chunk longer than the remaining room on a line
is broken mid-word at `space_left = width - cur_len` characters
(`TextWrapper._handle_long_word` with `break_long_words=True`).
Chunks and lines are represented as `List Char`; the float product
`max_width / avg_char_width * 0.9` is modelled by the exact rational
floor `max_width * 9 / (avg_char_width * 10)`. -/

/-- `str.maketrans`-free model of `TextWrapper._munge_whitespace`: every
whitespace character becomes a space. -/
def mungeWhitespace (s : String) : String :=
  String.mk (s.data.map fun c => if c.isWhitespace then ' ' else c)

/-- Splits a character list into maximal runs of spaces / non-spaces
(`TextWrapper._split` on munged, hyphen-free text).  `flag` is whether
the current run consists of spaces; `cur` holds the current run
reversed. -/
def splitRunsGo (flag : Bool) (cur : List Char) : List Char → List (List Char)
  | [] => [cur.reverse]
  | c :: cs =>
    if (c == ' ') == flag then splitRunsGo flag (c :: cur) cs
    else cur.reverse :: splitRunsGo (c == ' ') [c] cs

def splitRuns : List Char → List (List Char)
  | [] => []
  | c :: cs => splitRunsGo (c == ' ') [c] cs

/-- Total character count of a list of chunks. -/
def sumLen (l : List (List Char)) : ℕ :=
  (l.map List.length).sum

/-- Measure used to bound the number of outer-loop iterations of
`TextWrapper._wrap_chunks`: every iteration either consumes a chunk or
strictly shrinks the first chunk, so this quantity strictly decreases. -/
def chunksMeasure (cs : List (List Char)) : ℕ :=
  (cs.map fun c => c.length + 1).sum

/-- The inner greedy loop of `TextWrapper._wrap_chunks`: take chunks
while `cur_len + len(chunk) <= width`; returns the taken chunks and the
remainder. -/
def greedyTake (width : ℕ) : ℕ → List (List Char) → List (List Char) × List (List Char)
  | _, [] => ([], [])
  | curLen, c :: cs =>
    if curLen + c.length ≤ width then
      let p := greedyTake width (curLen + c.length) cs
      (c :: p.1, p.2)
    else ([], c :: cs)

/-- `drop_whitespace` handling of the line tail: if the last chunk of the
line is all whitespace it is removed (`if cur_line and
cur_line[-1].strip() == '': del cur_line[-1]`). -/
def dropTrailingWs (line : List (List Char)) : List (List Char) :=
  match line.getLast? with
  | some last => if last.all Char.isWhitespace then line.dropLast else line
  | none => line

/-- `TextWrapper._handle_long_word` with `break_long_words=True` on a
hyphen-free chunk: `space_left = 1 if width < 1 else width - cur_len`. -/
def spaceLeft (width curLen : ℕ) : ℕ :=
  if width < 1 then 1 else width - curLen

/-- One iteration of the outer loop of `TextWrapper._wrap_chunks` after
the leading-whitespace drop: greedy packing, then
`_handle_long_word` when the next chunk alone exceeds `width`, then the
trailing-whitespace drop.  Returns the chunks of the produced line and
the remaining chunks. -/
def buildLine (width : ℕ) (chunks : List (List Char)) :
    List (List Char) × List (List Char) :=
  match (greedyTake width 0 chunks).2 with
  | [] => (dropTrailingWs (greedyTake width 0 chunks).1, [])
  | r :: rs =>
    if width < r.length then
      (dropTrailingWs ((greedyTake width 0 chunks).1 ++
          [r.take (spaceLeft width (sumLen (greedyTake width 0 chunks).1))]),
        r.drop (spaceLeft width (sumLen (greedyTake width 0 chunks).1)) :: rs)
    else (dropTrailingWs (greedyTake width 0 chunks).1, r :: rs)

/-- The outer loop of `TextWrapper._wrap_chunks`.  `hasLines` records
whether a line has already been emitted (Python `lines` non-empty), which
gates the drop of a leading all-whitespace chunk.  The fuel argument
bounds the iteration count; `chunksMeasure` strictly decreases at every
iteration (see `buildLine_measure_lt`), so the fuel supplied by
`wrapChunks` is sufficient and the model never truncates. -/
def wrapLoopGo (width : ℕ) : ℕ → Bool → List (List Char) → List (List Char)
  | 0, _, _ => []
  | fuel + 1, hasLines, chunks =>
    match chunks with
    | [] => []
    | c :: cs =>
      if hasLines && c.all Char.isWhitespace then
        wrapLoopGo width fuel hasLines cs
      else if (buildLine width (c :: cs)).1.isEmpty then
        wrapLoopGo width fuel hasLines (buildLine width (c :: cs)).2
      else
        (buildLine width (c :: cs)).1.flatten ::
          wrapLoopGo width fuel true (buildLine width (c :: cs)).2

def wrapChunks (width : ℕ) (chunks : List (List Char)) : List (List Char) :=
  wrapLoopGo width (chunksMeasure chunks + 1) false chunks

/-- Python `textwrap.wrap(text, width=width)` (default options, tab-free
and hyphen-free text). -/
def textwrap_wrap (width : ℕ) (text : String) : List String :=
  (wrapChunks width (splitRuns (mungeWhitespace text).toList)).map
    fun l => String.mk l

/-- `TextOverlayGenerator._wrap_text`.  `avg_char_width` is the PIL
measurement `temp_draw.textsize('x', font=font)[0]` for the loaded font
at the requested size (external font metric, passed in). -/
def _wrap_text (avg_char_width max_width : ℕ) (text : String) : List String :=
  let chars_per_line := max 1 (max_width * 9 / (avg_char_width * 10))
  textwrap_wrap chars_per_line text

/-! ## reddit/post_processor.py -/

inductive SegType where
  | title
  | post_content
  | comment
deriving DecidableEq, Repr

/-- One segment dictionary produced by `PostProcessor.format_for_video`.
Fields that a given segment kind does not carry are `none`. -/
structure Segment where
  type : SegType
  text : String
  author : String
  subreddit : Option String
  part : Option ℕ
  total_parts : Option ℕ
  score : Option ℤ
  comment_number : Option ℕ
deriving DecidableEq, Repr

/-- The post dictionary consumed by `format_for_video` (the keys it
reads). -/
structure Post where
  title : String
  author : String
  subreddit : String
  selftext : String
deriving DecidableEq, Repr

/-- One comment dictionary consumed by `format_for_video`. -/
structure Comment where
  body : String
  author : String
  score : ℤ
deriving DecidableEq, Repr

mutual
/-- Accumulating half of the model of `re.split(r'\n+', s)`: `cur` holds
the characters of the current piece, reversed. -/
def pySplitNLGo (cur : List Char) : List Char → List String
  | [] => [String.mk cur.reverse]
  | c :: cs =>
    if c == '\n' then String.mk cur.reverse :: pySplitNLSkip cs
    else pySplitNLGo (c :: cur) cs

/-- Skipping half of the model of `re.split(r'\n+', s)`: consumes the
rest of a newline run, then resumes piece collection. -/
def pySplitNLSkip : List Char → List String
  | [] => [""]
  | c :: cs =>
    if c == '\n' then pySplitNLSkip cs
    else pySplitNLGo [c] cs
end

/-- `re.split(r'\n+', s)`: the pieces of `s` between maximal runs of
newlines (with an empty leading/trailing piece when `s` starts/ends with
a newline, as `re.split` produces). -/
def pySplitNewlineRuns (s : String) : List String :=
  pySplitNLGo [] s.toList

/-- The title segment appended first by `format_for_video`. -/
def titleSegment (clean : String → String) (post : Post) : Segment :=
  { type := SegType.title, text := clean post.title, author := post.author,
    subreddit := some post.subreddit, part := none, total_parts := none,
    score := none, comment_number := none }

/-- The `post_content` segments: the cleaned selftext is split on newline
runs, blank paragraphs are skipped, and `part` keeps the 1-based index in
the unfiltered paragraph list (as the Python `enumerate` does). -/
def contentSegments (clean : String → String) (post : Post) : List Segment :=
  if post.selftext = "" then []
  else
    let paragraphs := pySplitNewlineRuns (clean post.selftext)
    let totalParts := (paragraphs.filter fun p => ¬ p.trim = "").length
    paragraphs.enum.filterMap fun q =>
      if q.2.trim = "" then none
      else some { type := SegType.post_content, text := q.2.trim,
                  author := post.author, subreddit := none,
                  part := some (q.1 + 1), total_parts := some totalParts,
                  score := none, comment_number := none }

/-- The comment segments: cleaned comments shorter than 5 characters are
skipped; `comment_number` is the 1-based index in the input list. -/
def commentSegments (clean : String → String) (comments : List Comment) :
    List Segment :=
  comments.enum.filterMap fun q =>
    let cleaned := clean q.2.body
    if cleaned.length < 5 then none
    else some { type := SegType.comment, text := cleaned, author := q.2.author,
                subreddit := none, part := none, total_parts := none,
                score := some q.2.score, comment_number := some (q.1 + 1) }

/-- The truncation loop of `format_for_video`: starting from the title
length, append each further segment while the running total stays within
`max_length`, and stop at the first segment that does not fit
(`break`, not `continue`). -/
def truncGo (max_length : ℕ) : ℕ → List Segment → List Segment
  | _, [] => []
  | current_length, s :: ss =>
    if current_length + s.text.length ≤ max_length then
      s :: truncGo max_length (current_length + s.text.length) ss
    else []

/-- `PostProcessor.format_for_video`.  `clean` abstracts
`PostProcessor.clean_text` (a deterministic regex pipeline whose output
details the claims below do not depend on; every theorem about
`format_for_video` is quantified over it, so it holds in particular for
the real cleaner).  The Python default for `max_length` is 2000. -/
def format_for_video (clean : String → String) (post : Post)
    (comments : List Comment) (max_length : ℕ) : List Segment :=
  if max_length <
      ((titleSegment clean post ::
          (contentSegments clean post ++ commentSegments clean comments)).map
        fun s => s.text.length).sum then
    titleSegment clean post ::
      truncGo max_length (titleSegment clean post).text.length
        (contentSegments clean post ++ commentSegments clean comments)
  else
    titleSegment clean post ::
      (contentSegments clean post ++ commentSegments clean comments)

/-! ## video/compositor.py — VideoCompositor

`generate_video` iterates over segment dictionaries; a segment without an
`'audio'` key is skipped with a warning, otherwise `_create_segment_clip`
is called and its result appended when it is not `None`.  The external
world of `_create_segment_clip` — whether `AudioFileClip` opens and what
duration it reports, which background `get_random_background` picks,
`os.path.exists`, whether the moviepy constructors and the text overlay
succeed — is a `World` record.  moviepy semantics used: `loop(duration=d)`
and `set_duration(d)` give a clip of duration exactly `d`; `resize` and
`crop` keep the duration; `CompositeVideoClip` of clips starting at 0 has
the maximum of their durations; `set_audio` leaves the video duration
unchanged; `concatenate_videoclips(method="compose")` places the clips
end to end, accumulating their durations. -/

/-- A segment dictionary as consumed by `VideoCompositor.generate_video`:
`audio` is `none` when the `'audio'` key is absent. -/
structure SegmentInput where
  text : String
  audio : Option String
deriving DecidableEq, Repr

/-- The composed per-segment clip: its video duration, the duration of the
narration attached by `set_audio`, the path of the audio file backing the
`AudioFileClip`, and whether that `AudioFileClip` was ever closed inside
`_create_segment_clip` (it never is — the source contains no
`audio_clip.close()`). -/
structure Clip where
  duration : ℚ
  audioDuration : ℚ
  audioPath : String
  audioClosed : Bool
deriving DecidableEq, Repr

/-- The external effects visible to `_create_segment_clip`. -/
structure World where
  /-- `AudioFileClip(path).duration`, or `none` when opening the audio
  file raises (absent/unreadable file). -/
  audioDuration : String → Option ℚ
  /-- The draw of `background_manager.get_random_background()` made while
  processing a given segment. -/
  background : SegmentInput → Option String
  /-- `os.path.exists`. -/
  fileExists : String → Bool
  /-- Whether `VideoFileClip` / `ImageClip` succeeds on the background
  file. -/
  mediaOk : String → Bool
  /-- Whether `text_overlay.create_text_overlay` and the overlay
  `ImageClip` succeed for the segment. -/
  overlayOk : SegmentInput → Bool

/-- The video-extension test of `_create_segment_clip` (line 137:
`bg_path.endswith(('.mp4', '.mov', '.avi'))`, case-sensitive). -/
def hasVideoExt (p : String) : Bool :=
  pyEndsWith p ".mp4" || pyEndsWith p ".mov" || pyEndsWith p ".avi"

/-- The image-extension test of `_create_segment_clip` (line 139). -/
def hasImageExt (p : String) : Bool :=
  pyEndsWith p ".png" || pyEndsWith p ".jpg" || pyEndsWith p ".jpeg"

/-- `VideoCompositor._create_segment_clip`.  Every exception inside the
`try` block is caught and turned into `None`, modelled as `none`.  In the
success case the returned composite has video duration
`max duration duration` (the `CompositeVideoClip` of the
duration-`duration` background and the duration-`duration` text overlay)
and carries the narration of duration `duration`. -/
def _create_segment_clip (w : World) (seg : SegmentInput) : Option Clip :=
  match seg.audio with
  | none => none
  | some apath =>
    match w.audioDuration apath with
    | none => none
    | some duration =>
      match w.background seg with
      | none => none
      | some bg_path =>
        if ¬ w.fileExists bg_path then none
        else if hasVideoExt bg_path then
          if ¬ w.mediaOk bg_path then none
          else if ¬ w.overlayOk seg then none
          else some { duration := max duration duration,
                      audioDuration := duration, audioPath := apath,
                      audioClosed := false }
        else if hasImageExt bg_path then
          if ¬ w.mediaOk bg_path then none
          else if ¬ w.overlayOk seg then none
          else some { duration := max duration duration,
                      audioDuration := duration, audioPath := apath,
                      audioClosed := false }
        else none

/-- The clip-collection loop of `VideoCompositor.generate_video`
(lines 75-87): skip segments without `'audio'`, build the rest, keep the
non-`None` results in order. -/
def buildClips (w : World) : List SegmentInput → List Clip
  | [] => []
  | s :: ss =>
    if s.audio.isNone then buildClips w ss
    else
      match _create_segment_clip w s with
      | some clip => clip :: buildClips w ss
      | none => buildClips w ss

/-- Duration of `concatenate_videoclips(clips, method="compose")`: the
clips are laid end to end, each starting where the previous one ended. -/
def concatenateDuration (clips : List Clip) : ℚ :=
  clips.foldl (fun acc c => acc + c.duration) 0

/-- Observable outcome of one `VideoCompositor.generate_video` call:
the returned value (`none` models the Python `return None`), the files
written to disk, the segment clips that were built, and the duration of
the concatenated timeline. -/
structure RenderRun where
  result : Option String
  written : List String
  clips : List Clip
  finalDuration : ℚ
deriving DecidableEq, Repr

/-- `VideoCompositor.generate_video` (lines 46-106): build the clips; if
none survived, log an error and return `None` without writing anything;
otherwise concatenate in order, write the output file and return its
path. -/
def generate_video (w : World) (segments : List SegmentInput)
    (output_file : String) : RenderRun :=
  let clips := buildClips w segments
  if clips.isEmpty then
    { result := none, written := [], clips := clips, finalDuration := 0 }
  else
    { result := some output_file, written := [output_file], clips := clips,
      finalDuration := concatenateDuration clips }

/-! ## main.py — generate_video orchestration -/

/-- The audio-generation loop of `main.generate_video` (lines 78-89):
for every segment a path is appended — the TTS result when available,
otherwise a fresh placeholder temp file — so the list always has exactly
one path per segment.  `tts` models `tts_engine.text_to_speech` and
`placeholder` the `tempfile.mkstemp` path drawn at index `i`. -/
def mainAudioPaths (tts : String → Option String) (placeholder : ℕ → String)
    (segments : List Segment) : List String :=
  segments.enum.map fun q =>
    match tts q.2.text with
    | some path => path
    | none => placeholder q.1

/-- The methods defined by `class VideoCompositor` in
`src/video/compositor.py`. -/
def videoCompositorMethods : List String :=
  ["__init__", "generate_video", "_create_segment_clip"]

/-- Whether the attribute lookup `video_compositor.create_video` in
`main.generate_video` (line 99) resolves: it does not — the class defines
no such method, so the call raises `AttributeError`. -/
def createVideoCallSucceeds : Bool :=
  videoCompositorMethods.contains "create_video"

/-- The temp-audio cleanup of `main.generate_video` (lines 101-107): the
removal loop runs only if the `create_video` call on line 99 returned
normally — there is no `try`/`finally` around it — and then removes every
path.  Returns the audio files still on disk afterwards. -/
def mainCleanupAfter (callSucceeded : Bool) (audioPaths : List String) :
    List String :=
  if callSucceeded then [] else audioPaths

/-! ## Concrete fixtures used by witnesses and counterexamples -/

/-- A world in which every external step succeeds: all audio files open
with duration 7 s, the background manager always picks `"bg/clip.mp4"`,
which exists and decodes, and overlays render. -/
def wEx : World :=
  { audioDuration := fun _ => some 7,
    background := fun _ => some "bg/clip.mp4",
    fileExists := fun _ => true,
    mediaOk := fun _ => true,
    overlayOk := fun _ => true }

/-- A world in which every `AudioFileClip` raises (unreadable audio), so
every segment is dropped. -/
def wNoAudio : World :=
  { audioDuration := fun _ => none,
    background := fun _ => some "bg/clip.mp4",
    fileExists := fun _ => true,
    mediaOk := fun _ => true,
    overlayOk := fun _ => true }

/-- A segment with narration. -/
def segEx : SegmentInput :=
  { text := "hello", audio := some "tmp/a0.mp3" }

/-- The clip `_create_segment_clip` builds for `segEx` in `wEx`. -/
def clipEx : Clip :=
  { duration := max 7 7, audioDuration := 7, audioPath := "tmp/a0.mp3",
    audioClosed := false }

/-- A segment dictionary without an `'audio'` key. -/
def segNoAudio : SegmentInput := { text := "s5", audio := none }

/-- A minimal post fixture. -/
def postT : Post := { title := "T", author := "a", subreddit := "s", selftext := "" }

/-- Five segments of which only four carry an audio path (the scenario
"segment count 5, audio path count 4"): the fifth has no `'audio'` key. -/
def segsFiveFourAudio : List SegmentInput :=
  [{ text := "s1", audio := some "tmp/a1.mp3" },
   { text := "s2", audio := some "tmp/a2.mp3" },
   { text := "s3", audio := some "tmp/a3.mp3" },
   { text := "s4", audio := some "tmp/a4.mp3" },
   { text := "s5", audio := none }]

/-! ## Theorems -/

/-! ### C9 — random background selection -/

/-- **C9.** When the list of available backgrounds is empty — in
particular when the background directory does not exist — selecting a
random background returns `none` rather than raising; on a non-empty list
every draw of the random source yields one of the listed assets, and every
listed asset is produced by some draw (the uniform `random.choice`). -/
theorem C9_select_random_background (dir : String) (dirExists : Bool)
    (entries : List DirEntry) :
    (dirExists = false →
      ∀ rand, select_random_background dir dirExists entries rand = none) ∧
    (get_available_backgrounds dir dirExists entries = [] →
      ∀ rand, select_random_background dir dirExists entries rand = none) ∧
    (get_available_backgrounds dir dirExists entries ≠ [] →
      ∀ rand, ∃ b ∈ get_available_backgrounds dir dirExists entries,
        select_random_background dir dirExists entries rand = some b) ∧
    (get_available_backgrounds dir dirExists entries ≠ [] →
      ∀ b ∈ get_available_backgrounds dir dirExists entries,
        ∃ rand, select_random_background dir dirExists entries rand = some b) := by
  refine ⟨?_, ?_, ?_, ?_⟩
  · intro h rand
    simp [select_random_background, get_available_backgrounds, h]
  · intro h rand
    simp [select_random_background, h]
  · intro h rand
    have hlen : 0 < (get_available_backgrounds dir dirExists entries).length :=
      List.length_pos.mpr h
    have hlt : rand % (get_available_backgrounds dir dirExists entries).length <
        (get_available_backgrounds dir dirExists entries).length :=
      Nat.mod_lt _ hlen
    refine ⟨(get_available_backgrounds dir dirExists entries)[rand %
      (get_available_backgrounds dir dirExists entries).length], ?_, ?_⟩
    · exact List.getElem_mem hlt
    · simp [select_random_background, List.isEmpty_iff, h,
        List.getElem?_eq_getElem hlt]
  · intro h b hb
    obtain ⟨i, hi, rfl⟩ := List.mem_iff_getElem.mp hb
    refine ⟨i, ?_⟩
    simp [select_random_background, List.isEmpty_iff, h, Nat.mod_eq_of_lt hi,
      List.getElem?_eq_getElem hi]

/-- Witness for C9: a missing directory yields `none`, and a directory
with one `.mp4` file yields that file. -/
theorem C9_witness :
    select_random_background "bg" false [{ name := "a.mp4", isFile := true }] 3
      = none ∧
    ∃ b ∈ get_available_backgrounds "bg" true
        [{ name := "a.mp4", isFile := true }],
      select_random_background "bg" true [{ name := "a.mp4", isFile := true }] 3
        = some b := by
  constructor
  · exact (C9_select_random_background "bg" false
      [{ name := "a.mp4", isFile := true }]).1 rfl 3
  · exact (C9_select_random_background "bg" true
      [{ name := "a.mp4", isFile := true }]).2.2.1 (by decide) 3

/-! ### C8 — font-size search -/

/-- Invariant of the `_calculate_max_font_size` loop: starting from an
even size `fs ≥ 24` reachable within `fuel` decrements, the result is an
even size in `[24, fs]`, it either is 24 or fits, and every even size
strictly above the result (up to `fs`) was tried and did not fit. -/
theorem fontSizeSearchGo_spec (measure : ℕ → ℕ × ℕ) (mw mh : ℕ) :
    ∀ (fuel fs : ℕ), 24 ≤ fs → fs ≤ 24 + 2 * fuel → fs % 2 = 0 →
      24 ≤ fontSizeSearchGo measure mw mh fuel fs ∧
      fontSizeSearchGo measure mw mh fuel fs ≤ fs ∧
      fontSizeSearchGo measure mw mh fuel fs % 2 = 0 ∧
      (fontSizeSearchGo measure mw mh fuel fs = 24 ∨
        ((measure (fontSizeSearchGo measure mw mh fuel fs)).1 ≤ mw ∧
         (measure (fontSizeSearchGo measure mw mh fuel fs)).2 ≤ mh)) ∧
      (∀ s, fontSizeSearchGo measure mw mh fuel fs < s → s ≤ fs → s % 2 = 0 →
        ¬ ((measure s).1 ≤ mw ∧ (measure s).2 ≤ mh)) := by
  intro fuel
  induction fuel with
  | zero =>
    intro fs h24 hle hpar
    have hfs : fs = 24 := by omega
    subst hfs
    simp [fontSizeSearchGo]
    intro s hs hs' hpar'
    omega
  | succ fuel ih =>
    intro fs h24 hle hpar
    by_cases hgt : 24 < fs
    · by_cases hfit : (measure fs).1 ≤ mw ∧ (measure fs).2 ≤ mh
      · have hr : fontSizeSearchGo measure mw mh (fuel + 1) fs = fs := by
          simp [fontSizeSearchGo, hgt, hfit]
        refine ⟨by omega, by omega, by rw [hr]; exact hpar, ?_, ?_⟩
        · rw [hr]; exact Or.inr hfit
        · intro s hs hs' _
          rw [hr] at hs
          omega
      · have hr : fontSizeSearchGo measure mw mh (fuel + 1) fs
            = fontSizeSearchGo measure mw mh fuel (fs - 2) := by
          simp [fontSizeSearchGo, hgt, hfit]
        have h26 : 26 ≤ fs := by omega
        obtain ⟨ih1, ih2, ih3, ih4, ih5⟩ :=
          ih (fs - 2) (by omega) (by omega) (by omega)
        rw [hr]
        refine ⟨ih1, by omega, ih3, ih4, ?_⟩
        intro s hs hs' hpar'
        rcases Nat.lt_or_ge (fs - 2) s with hcase | hcase
        · have : s = fs := by omega
          subst this
          exact hfit
        · exact ih5 s hs hcase hpar'
    · have hfs : fs = 24 := by omega
      subst hfs
      simp [fontSizeSearchGo]
      intro s hs hs' hpar'
      omega

/-- **C8.** The font-size search terminates (it is a total function of
its 48-step fuel, which exactly covers the decrements from 120 to 24):
it returns an even size in `[24, 120]`; the result either fits within
`max_width × max_height` or is the floor 24 (returned even when the text
still overflows); and every even size above the result (up to the start
size 120) was measured and did not fit — i.e. the search decreases from
120 by the fixed step 2 until the text fits or the minimum is reached. -/
theorem C8_calculate_max_font_size (measure : ℕ → ℕ × ℕ) (mw mh : ℕ) :
    24 ≤ _calculate_max_font_size measure mw mh ∧
    _calculate_max_font_size measure mw mh ≤ 120 ∧
    _calculate_max_font_size measure mw mh % 2 = 0 ∧
    (_calculate_max_font_size measure mw mh = 24 ∨
      ((measure (_calculate_max_font_size measure mw mh)).1 ≤ mw ∧
       (measure (_calculate_max_font_size measure mw mh)).2 ≤ mh)) ∧
    (∀ s, _calculate_max_font_size measure mw mh < s → s ≤ 120 → s % 2 = 0 →
      ¬ ((measure s).1 ≤ mw ∧ (measure s).2 ≤ mh)) :=
  fontSizeSearchGo_spec measure mw mh 48 120 (by omega) (by omega) (by omega)

/-- Witness for C8 at a concrete metric: text that fits exactly at size
60 yields 60, and text that never fits yields the floor 24. -/
theorem C8_witness :
    24 ≤ _calculate_max_font_size (fun fs => (fs, fs)) 60 200 ∧
    _calculate_max_font_size (fun fs => (fs, fs)) 60 200 ≤ 120 ∧
    _calculate_max_font_size (fun fs => (fs, fs)) 60 200 = 60 ∧
    _calculate_max_font_size (fun fs => (fs + 1000, fs)) 60 200 = 24 := by
  refine ⟨(C8_calculate_max_font_size (fun fs => (fs, fs)) 60 200).1,
    (C8_calculate_max_font_size (fun fs => (fs, fs)) 60 200).2.1,
    by decide, by decide⟩

/-! ### C5 — text wrapping -/

theorem greedyTake_append (width : ℕ) :
    ∀ (cs : List (List Char)) (curLen : ℕ),
      (greedyTake width curLen cs).1 ++ (greedyTake width curLen cs).2 = cs := by
  intro cs
  induction cs with
  | nil => intro curLen; simp [greedyTake]
  | cons c cs ih =>
    intro curLen
    by_cases h : curLen + c.length ≤ width
    · simp [greedyTake, h, ih]
    · simp [greedyTake, h]

theorem greedyTake_sumLen (width : ℕ) :
    ∀ (cs : List (List Char)) (curLen : ℕ), curLen ≤ width →
      curLen + sumLen (greedyTake width curLen cs).1 ≤ width := by
  intro cs
  induction cs with
  | nil => intro curLen h; simpa [greedyTake, sumLen] using h
  | cons c cs ih =>
    intro curLen h
    by_cases hfit : curLen + c.length ≤ width
    · have := ih (curLen + c.length) hfit
      simp only [greedyTake, hfit, if_pos]
      simp [sumLen] at this ⊢
      omega
    · simpa [greedyTake, hfit, sumLen] using h

theorem sumLen_dropLast_le : ∀ l : List (List Char), sumLen l.dropLast ≤ sumLen l := by
  intro l
  induction l with
  | nil => simp
  | cons a l ih =>
    cases l with
    | nil => simp [sumLen]
    | cons b t =>
      simp only [List.dropLast_cons₂, sumLen, List.map_cons, List.sum_cons] at ih ⊢
      omega

theorem sumLen_dropTrailingWs_le (l : List (List Char)) :
    sumLen (dropTrailingWs l) ≤ sumLen l := by
  unfold dropTrailingWs
  cases h : l.getLast? with
  | none => exact le_refl _
  | some last =>
    by_cases hws : last.all Char.isWhitespace
    · simpa [hws] using sumLen_dropLast_le l
    · simp [hws]

theorem flatten_length_eq_sumLen (l : List (List Char)) :
    l.flatten.length = sumLen l := by
  simp [sumLen, List.length_flatten]

theorem sumLen_le_chunksMeasure (l : List (List Char)) :
    sumLen l ≤ chunksMeasure l := by
  induction l with
  | nil => simp [sumLen, chunksMeasure]
  | cons a l ih =>
    simp only [sumLen, chunksMeasure, List.map_cons, List.sum_cons] at ih ⊢
    omega

theorem chunksMeasure_append (a b : List (List Char)) :
    chunksMeasure (a ++ b) = chunksMeasure a + chunksMeasure b := by
  simp [chunksMeasure]

theorem chunksMeasure_cons (a : List Char) (l : List (List Char)) :
    chunksMeasure (a :: l) = a.length + 1 + chunksMeasure l := by
  simp only [chunksMeasure, List.map_cons, List.sum_cons]

/-- Every line built by one outer iteration of `_wrap_chunks` has at most
`max width 1` characters: the greedy part stays within `width`, and the
long-word break adds exactly the space left on the line (or a single
character when `width < 1`). -/
theorem buildLine_line_le (width : ℕ) (chunks : List (List Char)) :
    (buildLine width chunks).1.flatten.length ≤ max width 1 := by
  have hsum : sumLen (greedyTake width 0 chunks).1 ≤ width := by
    have h := greedyTake_sumLen width chunks 0 (Nat.zero_le width)
    omega
  unfold buildLine
  cases h2 : (greedyTake width 0 chunks).2 with
  | nil =>
    simp only [flatten_length_eq_sumLen]
    have := sumLen_dropTrailingWs_le (greedyTake width 0 chunks).1
    omega
  | cons r rs =>
    by_cases hlong : width < r.length
    · simp only [hlong, if_pos, flatten_length_eq_sumLen]
      have hdrop := sumLen_dropTrailingWs_le ((greedyTake width 0 chunks).1 ++
        [r.take (spaceLeft width (sumLen (greedyTake width 0 chunks).1))])
      have happ : sumLen ((greedyTake width 0 chunks).1 ++
          [r.take (spaceLeft width (sumLen (greedyTake width 0 chunks).1))])
          = sumLen (greedyTake width 0 chunks).1 +
            (r.take (spaceLeft width (sumLen (greedyTake width 0 chunks).1))).length := by
        simp [sumLen]
      have htake : (r.take (spaceLeft width
          (sumLen (greedyTake width 0 chunks).1))).length
          ≤ spaceLeft width (sumLen (greedyTake width 0 chunks).1) := by
        simp [List.length_take]
      by_cases hw : width < 1
      · have hw0 : width = 0 := by omega
        have : spaceLeft width (sumLen (greedyTake width 0 chunks).1) = 1 := by
          simp [spaceLeft, hw]
        omega
      · have : spaceLeft width (sumLen (greedyTake width 0 chunks).1)
            = width - sumLen (greedyTake width 0 chunks).1 := by
          simp [spaceLeft, hw]
        omega
    · simp only [if_neg hlong, flatten_length_eq_sumLen]
      have := sumLen_dropTrailingWs_le (greedyTake width 0 chunks).1
      omega

/-- The remaining chunks after one outer iteration are strictly smaller in
`chunksMeasure`: the iteration consumes at least one chunk or strictly
shrinks the first one, so the fuel `chunksMeasure chunks + 1` supplied by
`wrapChunks` never runs out before the chunk list is exhausted. -/
theorem buildLine_measure_lt (width : ℕ) (c : List Char) (cs : List (List Char)) :
    chunksMeasure (buildLine width (c :: cs)).2 < chunksMeasure (c :: cs) := by
  have happ := greedyTake_append width (c :: cs) 0
  have hsum : sumLen (greedyTake width 0 (c :: cs)).1 ≤ width := by
    have h := greedyTake_sumLen width (c :: cs) 0 (Nat.zero_le width)
    omega
  have hmeas : chunksMeasure (greedyTake width 0 (c :: cs)).1 +
      chunksMeasure (greedyTake width 0 (c :: cs)).2 = chunksMeasure (c :: cs) := by
    rw [← chunksMeasure_append, happ]
  unfold buildLine
  cases h2 : (greedyTake width 0 (c :: cs)).2 with
  | nil =>
    simp [chunksMeasure]
  | cons r rs =>
    rw [h2, chunksMeasure_cons r rs] at hmeas
    by_cases hlong : width < r.length
    · simp only [if_pos hlong]
      rw [chunksMeasure_cons, List.length_drop]
      have hone : 1 ≤ spaceLeft width (sumLen (greedyTake width 0 (c :: cs)).1) ∨
          1 ≤ chunksMeasure (greedyTake width 0 (c :: cs)).1 := by
        by_cases hw : width < 1
        · left
          simp [spaceLeft, hw]
        · by_cases hcur : sumLen (greedyTake width 0 (c :: cs)).1 < width
          · left
            simp only [spaceLeft, if_neg hw]
            omega
          · right
            have h1 : 1 ≤ sumLen (greedyTake width 0 (c :: cs)).1 := by omega
            have hch := sumLen_le_chunksMeasure (greedyTake width 0 (c :: cs)).1
            omega
      omega
    · simp only [if_neg hlong]
      rw [chunksMeasure_cons]
      -- the greedy take is non-empty: the head chunk fits (else it would
      -- have been the long chunk, contradicting `hlong`)
      have hμpos : 0 < chunksMeasure (greedyTake width 0 (c :: cs)).1 := by
        by_cases hc : c.length ≤ width
        · have hg1 : (greedyTake width 0 (c :: cs)).1
              = c :: (greedyTake width c.length cs).1 := by
            simp [greedyTake, hc]
          rw [hg1, chunksMeasure_cons]
          omega
        · exfalso
          have hg : greedyTake width 0 (c :: cs) = ([], c :: cs) := by
            simp [greedyTake, hc]
          have h2' : c :: cs = r :: rs := by
            rw [hg] at h2
            exact h2
          injection h2' with hcr hcs
          rw [hcr] at hc
          omega
      omega

/-- The result of `wrapLoopGo` does not depend on the fuel as long as the
fuel exceeds `chunksMeasure chunks`: the supplied fuel
`chunksMeasure chunks + 1` therefore computes the true fixpoint of the
Python loop and the fuel encoding introduces no truncation. -/
theorem wrapLoopGo_fuel (width : ℕ) :
    ∀ (n : ℕ) (hasLines : Bool) (chunks : List (List Char)) (f₁ f₂ : ℕ),
      chunksMeasure chunks ≤ n → chunksMeasure chunks < f₁ →
      chunksMeasure chunks < f₂ →
      wrapLoopGo width f₁ hasLines chunks = wrapLoopGo width f₂ hasLines chunks := by
  intro n
  induction n with
  | zero =>
    intro hasLines chunks f₁ f₂ hn h1 h2
    cases chunks with
    | nil =>
      cases f₁ with
      | zero => exact absurd h1 (Nat.not_lt_zero _)
      | succ m =>
        cases f₂ with
        | zero => exact absurd h2 (Nat.not_lt_zero _)
        | succ k => simp [wrapLoopGo]
    | cons c cs =>
      rw [chunksMeasure_cons] at hn
      omega
  | succ n ih =>
    intro hasLines chunks f₁ f₂ hn h1 h2
    cases chunks with
    | nil =>
      cases f₁ with
      | zero => exact absurd h1 (Nat.not_lt_zero _)
      | succ m =>
        cases f₂ with
        | zero => exact absurd h2 (Nat.not_lt_zero _)
        | succ k => simp [wrapLoopGo]
    | cons c cs =>
      cases f₁ with
      | zero => exact absurd h1 (Nat.not_lt_zero _)
      | succ m =>
        cases f₂ with
        | zero => exact absurd h2 (Nat.not_lt_zero _)
        | succ k =>
          have hcs : chunksMeasure cs < chunksMeasure (c :: cs) := by
            rw [chunksMeasure_cons]
            omega
          have hbl := buildLine_measure_lt width c cs
          simp only [wrapLoopGo]
          by_cases hws : (hasLines && c.all Char.isWhitespace) = true
          · simp only [if_pos hws]
            exact ih hasLines cs m k (by omega) (by omega) (by omega)
          · simp only [if_neg hws]
            by_cases hempty : (buildLine width (c :: cs)).1.isEmpty = true
            · simp only [if_pos hempty]
              exact ih hasLines (buildLine width (c :: cs)).2 m k
                (by omega) (by omega) (by omega)
            · simp only [if_neg hempty]
              rw [ih true (buildLine width (c :: cs)).2 m k
                (by omega) (by omega) (by omega)]

/-- Every line produced by the wrap loop has at most `max width 1`
characters, whatever the fuel. -/
theorem wrapLoopGo_line_le (width : ℕ) :
    ∀ (fuel : ℕ) (hasLines : Bool) (chunks : List (List Char)) (line : List Char),
      line ∈ wrapLoopGo width fuel hasLines chunks → line.length ≤ max width 1 := by
  intro fuel
  induction fuel with
  | zero =>
    intro hl chunks line h
    simp [wrapLoopGo] at h
  | succ fuel ih =>
    intro hl chunks line h
    cases chunks with
    | nil => simp [wrapLoopGo] at h
    | cons c cs =>
      simp only [wrapLoopGo] at h
      by_cases hws : (hl && c.all Char.isWhitespace) = true
      · simp only [if_pos hws] at h
        exact ih hl cs line h
      · simp only [if_neg hws] at h
        by_cases hempty : (buildLine width (c :: cs)).1.isEmpty = true
        · simp only [if_pos hempty] at h
          exact ih hl (buildLine width (c :: cs)).2 line h
        · simp only [if_neg hempty] at h
          rcases List.mem_cons.mp h with hline | h'
          · rw [hline]
            exact buildLine_line_le width (c :: cs)
          · exact ih true (buildLine width (c :: cs)).2 line h'

/-- **C5 (counterexample).** The claim states that a single word wider
than the limit is placed alone on its own line and that no word is ever
split mid-word.  With an average character width of 10 px and a maximum
width of 100 px the code computes `chars_per_line = int(100/10*0.9) = 9`
and hands the text to `textwrap.wrap`, whose default
`break_long_words=True` splits the 14-character word `abcdefghijklmn`
mid-word into `abcdefghi` and `jklmn` instead of leaving it alone on one
line; neither produced line measures wider than the limit. -/
theorem C5_counterexample :
    _wrap_text 10 100 "abcdefghijklmn" = ["abcdefghi", "jklmn"] ∧
    ¬ _wrap_text 10 100 "abcdefghijklmn" = ["abcdefghijklmn"] := by
  constructor
  · rfl
  · decide

/-- **C5 (amended).** `_wrap_text` wraps by estimated character count,
not by measured pixel width: every produced line has at most
`chars_per_line = max 1 (maxWidth * 9 / (avgCharWidth * 10))` characters
(the rational-floor model of `int(max_width / avg_char_width * 0.9)`);
no word is dropped, but a word longer than `chars_per_line` is broken
mid-word across lines rather than placed alone on a wider line (see the
counterexample). -/
theorem C5_wrap_text_line_bound (avg_char_width max_width : ℕ)
    (text line : String)
    (h : line ∈ _wrap_text avg_char_width max_width text) :
    line.length ≤ max 1 (max_width * 9 / (avg_char_width * 10)) := by
  unfold _wrap_text textwrap_wrap wrapChunks at h
  obtain ⟨l, hl, rfl⟩ := List.mem_map.mp h
  have hlen := wrapLoopGo_line_le
    (max 1 (max_width * 9 / (avg_char_width * 10))) _ _ _ l hl
  have hmax : max (max 1 (max_width * 9 / (avg_char_width * 10))) 1
      = max 1 (max_width * 9 / (avg_char_width * 10)) :=
    max_eq_left (le_max_left 1 _)
  rw [hmax] at hlen
  exact hlen

/-- Witness for the amended C5 at the counterexample input: the split
line `abcdefghi` respects the 9-character bound. -/
theorem C5_witness :
    ("abcdefghi" : String).length ≤ max 1 (100 * 9 / (10 * 10)) :=
  C5_wrap_text_line_bound 10 100 "abcdefghijklmn" "abcdefghi" (by decide)

/-! ### C10 — format_for_video -/

theorem truncGo_sum_le (max_length : ℕ) :
    ∀ (ss : List Segment) (cur : ℕ),
      cur + ((truncGo max_length cur ss).map fun s => s.text.length).sum
        ≤ max max_length cur := by
  intro ss
  induction ss with
  | nil =>
    intro cur
    simp only [truncGo, List.map_nil, List.sum_nil, Nat.add_zero]
    exact le_max_right max_length cur
  | cons s ss ih =>
    intro cur
    by_cases hfit : cur + s.text.length ≤ max_length
    · simp only [truncGo, if_pos hfit, List.map_cons, List.sum_cons]
      have hrec := ih (cur + s.text.length)
      rw [max_eq_left hfit] at hrec
      have hle : max_length ≤ max max_length cur := le_max_left _ _
      omega
    · simp only [truncGo, if_neg hfit, List.map_nil, List.sum_nil]
      have := le_max_right max_length cur
      omega

/-- **C10.** `format_for_video` always returns a non-empty list whose
first element is the title segment; when the combined text exceeds
`max_length` the result is truncated only at segment boundaries while
keeping the title first, so the total text length never exceeds
`max max_length (title length)`. -/
theorem C10_format_for_video (clean : String → String) (post : Post)
    (comments : List Comment) (max_length : ℕ) :
    format_for_video clean post comments max_length ≠ [] ∧
    (format_for_video clean post comments max_length).head?
      = some (titleSegment clean post) ∧
    ((format_for_video clean post comments max_length).map
        fun s => s.text.length).sum
      ≤ max max_length (clean post.title).length := by
  unfold format_for_video
  by_cases h : max_length <
      ((titleSegment clean post ::
          (contentSegments clean post ++ commentSegments clean comments)).map
        fun s => s.text.length).sum
  · rw [if_pos h]
    refine ⟨List.cons_ne_nil _ _, rfl, ?_⟩
    simp only [List.map_cons, List.sum_cons]
    exact truncGo_sum_le max_length
      (contentSegments clean post ++ commentSegments clean comments)
      (titleSegment clean post).text.length
  · rw [if_neg h]
    refine ⟨List.cons_ne_nil _ _, rfl, ?_⟩
    exact le_trans (Nat.not_lt.mp h)
      (le_max_left max_length (clean post.title).length)

/-- Witness for C10 at a concrete post with empty selftext and no
comments. -/
theorem C10_witness :
    format_for_video id
        { title := "T", author := "a", subreddit := "s", selftext := "" }
        [] 2000 ≠ [] ∧
    (format_for_video id
        { title := "T", author := "a", subreddit := "s", selftext := "" }
        [] 2000).head?
      = some (titleSegment id
        { title := "T", author := "a", subreddit := "s", selftext := "" }) ∧
    ((format_for_video id
        { title := "T", author := "a", subreddit := "s", selftext := "" }
        [] 2000).map fun s => s.text.length).sum
      ≤ max 2000 (id "T").length :=
  C10_format_for_video id
    { title := "T", author := "a", subreddit := "s", selftext := "" } [] 2000

/-! ### C1 — segment clip duration -/

/-- Any clip produced by `_create_segment_clip` has video duration equal
to its narration duration (the composite is the `max` of two layers both
locked to the audio duration), and its `AudioFileClip` is never closed
inside the builder. -/
theorem _create_segment_clip_some (w : World) (seg : SegmentInput) (c : Clip)
    (h : _create_segment_clip w seg = some c) :
    c.duration = c.audioDuration ∧ c.audioClosed = false := by
  cases hs : seg.audio with
  | none => simp [_create_segment_clip, hs] at h
  | some apath =>
    cases hd : w.audioDuration apath with
    | none => simp [_create_segment_clip, hs, hd] at h
    | some d =>
      cases hb : w.background seg with
      | none => simp [_create_segment_clip, hs, hd, hb] at h
      | some p =>
        simp only [_create_segment_clip, hs, hd, hb] at h
        split_ifs at h <;>
          first
          | exact Option.noConfusion h
          | (injection h with h'
             subst h'
             exact ⟨max_self d, rfl⟩)

/-- **C1.** For every segment whose audio file is readable and whose clip
is actually produced, the composite clip's duration equals the audio
track's duration exactly — never shorter than the narration and never
silently longer. -/
theorem C1_segment_clip_duration (w : World) (seg : SegmentInput) (c : Clip)
    (h : _create_segment_clip w seg = some c) :
    c.duration = c.audioDuration :=
  (_create_segment_clip_some w seg c h).1

/-- Witness for C1: in the all-success world the clip for `segEx` exists
and its duration matches its narration. -/
theorem C1_witness :
    ∃ c, _create_segment_clip wEx segEx = some c ∧
      c.duration = c.audioDuration := by
  refine ⟨clipEx, rfl, ?_⟩
  exact C1_segment_clip_duration wEx segEx clipEx rfl

/-! ### C2 — timeline order and duration -/

theorem buildClips_eq_filterMap (w : World) :
    ∀ segs : List SegmentInput,
      buildClips w segs = segs.filterMap fun s =>
        if s.audio.isSome then _create_segment_clip w s else none := by
  intro segs
  induction segs with
  | nil => simp [buildClips]
  | cons s ss ih =>
    cases hs : s.audio with
    | none => simp [buildClips, List.filterMap_cons, hs, ih]
    | some a =>
      cases hc : _create_segment_clip w s with
      | none => simp [buildClips, List.filterMap_cons, hs, hc, ih]
      | some c => simp [buildClips, List.filterMap_cons, hs, hc, ih]

theorem concatenateDuration_eq_sum (clips : List Clip) :
    concatenateDuration clips = (clips.map fun c => c.duration).sum := by
  have hgen : ∀ (l : List Clip) (a : ℚ),
      l.foldl (fun acc c => acc + c.duration) a
        = a + (l.map fun c => c.duration).sum := by
    intro l
    induction l with
    | nil => intro a; simp
    | cons c l ih =>
      intro a
      simp [ih, add_assoc]
  simpa [concatenateDuration] using hgen clips 0

/-- **C2.** The clips of the final timeline are exactly the per-segment
builds in input order — segments are removed only by per-segment drops
(missing `'audio'` key, or a failed build), never reordered — and the
concatenated timeline's duration is the sum of the included clips'
durations. -/
theorem C2_timeline_order_and_duration (w : World) (segs : List SegmentInput)
    (out : String) :
    (generate_video w segs out).clips
      = (segs.filterMap fun s =>
          if s.audio.isSome then _create_segment_clip w s else none) ∧
    (generate_video w segs out).finalDuration
      = (((generate_video w segs out).clips).map fun c => c.duration).sum := by
  constructor
  · unfold generate_video
    by_cases h : (buildClips w segs).isEmpty = true
    · rw [if_pos h]
      exact buildClips_eq_filterMap w segs
    · rw [if_neg h]
      exact buildClips_eq_filterMap w segs
  · unfold generate_video
    by_cases h : (buildClips w segs).isEmpty = true
    · rw [if_pos h]
      have hb : buildClips w segs = [] := List.isEmpty_iff.mp h
      simp [hb]
    · rw [if_neg h]
      exact concatenateDuration_eq_sum (buildClips w segs)

/-! ### C3 — no pre-flight count check -/

/-- **C3 (counterexample).** With five segments of which only four carry
audio, the pipeline does not raise any `ConfigurationError` before clip
work begins: it builds the four clips of the audio-carrying segments
inside the loop and returns the output path — the mismatch is handled
mid-loop by skipping, not pre-flight. -/
theorem C3_counterexample :
    (generate_video wEx segsFiveFourAudio "out.mp4").result = some "out.mp4" ∧
    (generate_video wEx segsFiveFourAudio "out.mp4").clips.length = 4 := by
  constructor
  · rfl
  · rfl

/-- **C3 (amended).** No segment/audio count check exists anywhere: in
`main.generate_video` the TTS loop appends a placeholder temp file when
synthesis fails, so the audio path list always has exactly one entry per
segment (a mismatch cannot even arise); in the compositor a segment
without an `'audio'` key is skipped inside the clip loop (with a warning)
and the remaining segments are still processed.  No `ConfigurationError`
type exists in the codebase. -/
theorem C3_no_preflight_count_check (tts : String → Option String)
    (placeholder : ℕ → String) (msegs : List Segment) (w : World)
    (s : SegmentInput) (ss : List SegmentInput) (h : s.audio = none) :
    (mainAudioPaths tts placeholder msegs).length = msegs.length ∧
    buildClips w (s :: ss) = buildClips w ss := by
  constructor
  · unfold mainAudioPaths
    rw [List.length_map, List.enum_length]
  · simp [buildClips, h]

/-- Witness for the amended C3. -/
theorem C3_witness :
    (mainAudioPaths (fun _ => none) (fun _ => "tmp/ph.mp3")
      [titleSegment id postT]).length = 1 ∧
    buildClips wEx [segNoAudio] = buildClips wEx [] :=
  C3_no_preflight_count_check (fun _ => none) (fun _ => "tmp/ph.mp3")
    [titleSegment id postT] wEx segNoAudio [] rfl

/-! ### C4 — zero surviving clips -/

/-- **C4 (counterexample).** When zero usable segment clips survive, the
render does not raise or return a `NoContentError` — no such type exists
in the codebase; `generate_video` logs an error and returns the Python
`None` by a normal return.  It does write nothing. -/
theorem C4_counterexample :
    generate_video wNoAudio [segEx] "out.mp4"
      = { result := none, written := [], clips := [], finalDuration := 0 } := by
  rfl

/-- **C4 (amended).** When zero usable segment clips survive,
`generate_video` returns `None` (not an explicit `NoContentError`, which
does not exist) and writes no output file — it never reports success in
that case. -/
theorem C4_no_content_returns_none (w : World) (segs : List SegmentInput)
    (out : String) (h : buildClips w segs = []) :
    (generate_video w segs out).result = none ∧
    (generate_video w segs out).written = [] := by
  unfold generate_video
  simp [h]

/-- Witness for the amended C4. -/
theorem C4_witness :
    (generate_video wNoAudio [segEx] "out.mp4").result = none ∧
    (generate_video wNoAudio [segEx] "out.mp4").written = [] :=
  C4_no_content_returns_none wNoAudio [segEx] "out.mp4" rfl

/-! ### C6 — background fit geometry -/

/-- **C6 (counterexample).** A 540×1920 source (aspect narrower than the
9:16 target) is resized to height 1920 with width 540 and then *not*
cropped at all — the result is 540×1920, not the claimed exact
1080×1920, and no top/bottom crop is ever performed. -/
theorem C6_counterexample :
    get_background_clip_dims 540 1920 = (540, 1920) ∧
    ¬ get_background_clip_dims 540 1920 = (1080, 1920) ∧
    get_background_clip_crop 540 1920 = none := by
  have hval : (540 : ℚ) * 1920 / 1920 = 540 := by norm_num
  have hlt : ¬ (1080 : ℚ) < 540 * 1920 / 1920 := by
    rw [hval]
    norm_num
  refine ⟨?_, ?_, ?_⟩
  · unfold get_background_clip_dims
    rw [if_neg hlt, hval]
  · unfold get_background_clip_dims
    rw [if_neg hlt, hval]
    intro hcontra
    have h540 : (540 : ℚ) = 1080 := congrArg Prod.fst hcontra
    norm_num at h540
  · unfold get_background_clip_crop
    rw [if_neg hlt]

/-- **C6 (amended).** `get_background_clip` resizes the source to the
target height preserving aspect ratio; if the scaled width exceeds the
target width it crops left/right symmetrically (the crop window is
horizontally centred, spans the full height, and is exactly 1080 wide),
otherwise it performs no crop — so the resulting width is
`min (w·1920/h) 1080` and sources narrower than the target aspect keep
their smaller width (no top/bottom crop, no padding). -/
theorem C6_fit_to_frame (w h : ℚ) :
    get_background_clip_dims w h = (min (w * 1920 / h) 1080, 1920) ∧
    (∀ x1 y1 x2 y2, get_background_clip_crop w h = some (x1, y1, x2, y2) →
      x2 - x1 = 1080 ∧ x1 = w * 1920 / h - x2 ∧ y1 = 0 ∧ y2 = 1920) := by
  constructor
  · unfold get_background_clip_dims
    by_cases hc : (1080 : ℚ) < w * 1920 / h
    · rw [if_pos hc, min_eq_right hc.le]
    · rw [if_neg hc, min_eq_left (not_lt.mp hc)]
  · intro x1 y1 x2 y2 hcrop
    unfold get_background_clip_crop at hcrop
    by_cases hc : (1080 : ℚ) < w * 1920 / h
    · rw [if_pos hc] at hcrop
      injection hcrop with he
      simp only [Prod.mk.injEq] at he
      obtain ⟨hx1, hy1, hx2, hy2⟩ := he
      subst hx1
      subst hy1
      subst hx2
      subst hy2
      refine ⟨by ring, by ring, rfl, rfl⟩
    · rw [if_neg hc] at hcrop
      exact Option.noConfusion hcrop

/-- Witness for the amended C6 at a wide 2000×1000 source: the scaled
width is 3840, the crop window is `(1380, 0, 2460, 1920)`, 1080 wide and
horizontally symmetric. -/
theorem C6_witness :
    (2460 : ℚ) - 1380 = 1080 ∧
    (1380 : ℚ) = 2000 * 1920 / 1000 - 2460 ∧
    (0 : ℚ) = 0 ∧ (1920 : ℚ) = 1920 :=
  (C6_fit_to_frame 2000 1000).2 1380 0 2460 1920 (by
    unfold get_background_clip_crop
    norm_num)

/-! ### C7 — resource release -/

/-- **C7 (counterexample).** The attribute lookup
`video_compositor.create_video` in `main.generate_video` does not resolve
(the class defines no such method), so the call raises `AttributeError`
and the temp-audio cleanup loop after it — which has no `try`/`finally` —
never runs: the segment's temporary audio file is left on disk on that
exit path. -/
theorem C7_counterexample :
    mainCleanupAfter createVideoCallSucceeds ["tmp/a0.mp3"] = ["tmp/a0.mp3"] ∧
    ¬ mainCleanupAfter createVideoCallSucceeds ["tmp/a0.mp3"]
      = ([] : List String) := by
  constructor
  · rfl
  · decide

/-- **C7 (amended).** Audio resources are released only on the normal
return of the `create_video` call: the cleanup loop in
`main.generate_video` removes every temp audio file when that call
returns, but it is not wrapped in `try`/`finally`, and since
`VideoCompositor` defines no `create_video` method the call always raises
and the loop never runs; moreover `_create_segment_clip` never closes the
`AudioFileClip` it opens, on any path. -/
theorem C7_cleanup_only_on_success (paths : List String) (w : World)
    (seg : SegmentInput) (c : Clip)
    (h : _create_segment_clip w seg = some c) :
    mainCleanupAfter true paths = [] ∧
    mainCleanupAfter createVideoCallSucceeds paths = paths ∧
    c.audioClosed = false := by
  refine ⟨rfl, ?_, ?_⟩
  · have hfail : createVideoCallSucceeds = false := rfl
    rw [hfail]
    rfl
  · exact (_create_segment_clip_some w seg c h).2

/-- Witness for the amended C7. -/
theorem C7_witness :
    mainCleanupAfter true ["tmp/a1.mp3"] = [] ∧
    mainCleanupAfter createVideoCallSucceeds ["tmp/a1.mp3"] = ["tmp/a1.mp3"] ∧
    clipEx.audioClosed = false :=
  C7_cleanup_only_on_success ["tmp/a1.mp3"] wEx segEx clipEx rfl

end RedditVideo
